import Mathlib

/-!
Verification of `enaml/core/expression_engine.py`: the `ExpressionEngine`
class managing reading and writing of bound expressions.

The engine holds two `sortedmap`s (an ordered string-keyed mapping from the
external `atom.datastructures` dependency): `read_handlers` mapping a name to
a read handler, and `write_handlers` mapping a name to a list of write
handlers.  `read` dispatches to the handler bound at a name, `write` runs the
handler chain bound at a name in order, and `copy` produces an engine with
independent handler maps (the read map copied, each write chain duplicated).

Because the claims about `copy` concern Python object identity (new list
objects versus shared ones, and the independence of the two engines under
later mutation), the mutable structures are modelled with an explicit store
(`Heap`): sortedmap objects and list objects live in the store and the engine
holds references (store indices) to its two maps; a write map binds each name
to the reference of its chain's list object.  Handler objects themselves are
never mutated by this fragment, so they are modelled as plain values of
abstract types `RH` / `WH`; their Python `__call__` behaviour
(`ReadHandler.__call__(owner, name)` and
`WriteHandler.__call__(owner, name, change)`) is supplied as semantic
functions `callR` / `callW`.  A write handler may have side effects on the
surrounding world (the owner and anything reachable from it), modelled as a
state `σ` threaded through the chain, and may raise, modelled with `Except`.
-/

namespace Enaml

/-- The ordered string-keyed mapping of the external `sortedmap` dependency,
modelled as an association list (lookup finds the first matching key; real
sortedmaps keep keys unique, which the theorems assume where it matters). -/
abbrev sortedmap (α : Type) : Type := List (String × α)

namespace sortedmap

/-- Point lookup, `m[key]` for a key that may be absent. -/
def find? {α : Type} : sortedmap α → String → Option α
  | [], _ => none
  | (k, v) :: rest, n => if k = n then some v else find? rest n

/-- Assignment `m[key] = value`: overwrite the first binding of the key if
present, otherwise add a new binding. -/
def put {α : Type} : sortedmap α → String → α → sortedmap α
  | [], n, v => [(n, v)]
  | (k, w) :: rest, n, v =>
      if k = n then (n, v) :: rest else (k, w) :: put rest n v

/-- The keys of the map, in iteration order. -/
def keys {α : Type} (m : sortedmap α) : List String :=
  m.map Prod.fst

end sortedmap

/-- The store of mutable objects: read-handler sortedmap objects, write-handler
sortedmap objects (binding each name to the store index of its chain's list
object), and the list objects holding write-handler chains.  A store index is
a model of a Python object reference; mutation of an object is `List.set` at
its index, allocation is appending at the end. -/
structure Heap (RH WH : Type) : Type where
  rmaps : List (sortedmap RH)
  wmaps : List (sortedmap Nat)
  lists : List (List WH)

/-- The `ExpressionEngine`: a class which manages reading and writing bound
expressions.  `read_handlers` is (a reference to) a mapping of string name to
read handler; `write_handlers` is (a reference to) a mapping of string name to
list of write handlers. -/
structure ExpressionEngine : Type where
  read_handlers : Nat
  write_handlers : Nat
deriving DecidableEq

/-- Dereference a read-handler map object. -/
def rmapAt {RH WH : Type} (h : Heap RH WH) (i : Nat) : sortedmap RH :=
  (h.rmaps[i]?).getD []

/-- Dereference a write-handler map object. -/
def wmapAt {RH WH : Type} (h : Heap RH WH) (i : Nat) : sortedmap Nat :=
  (h.wmaps[i]?).getD []

/-- Dereference a chain's list object. -/
def listAt {WH : Type} (ls : List (List WH)) (i : Nat) : List WH :=
  (ls[i]?).getD []

/-- Outcome of `read`: either the handler's value, or a propagated failure. -/
inductive ReadError (E : Type) : Type where
  | noReadHandler : ReadError E
  | handlerRaised : E → ReadError E
deriving DecidableEq

/-- Method `read(self, owner, name)`: compute and return the value of an expression —
`return self.read_handlers[name](owner, name)`.  The handler found at `name`
is invoked with `(owner, name)` via its `__call__` semantics `callR` and its
result is returned unchanged (a raise by the handler propagates, tagged
`handlerRaised`).  The absent-key branch is modelled from the spec:
`sortedmap` is an external dependency not under `src/`, and the spec's
registry contract says a read-side lookup of an absent name fails
(`KeyNotFound`), surfacing as the `NoReadHandler` error. -/
def ExpressionEngine.read {RH WH Owner V E : Type}
    (callR : RH → Owner → String → Except E V)
    (h : Heap RH WH) (self : ExpressionEngine) (owner : Owner)
    (name : String) : Except (ReadError E) V :=
  match sortedmap.find? (rmapAt h self.read_handlers) name with
  | none => .error .noReadHandler
  | some rh => (callR rh owner name).mapError ReadError.handlerRaised

/-- One write-handler invocation, recording the handler called and the
arguments `(owner, name, change)` it received. -/
structure WriteCall (WH Owner Change : Type) : Type where
  handler : WH
  owner : Owner
  name : String
  change : Change
deriving DecidableEq

/-- The loop `for handler in chain: handler(owner, name, change)`: each
handler is invoked in order with the identical arguments, threading the world
state `σ`; a raise stops the loop and propagates.  Returns the trace of
invocations made, the final world state, and the propagated failure if any. -/
def runWriteChain {WH Owner Change E σ : Type}
    (callW : WH → σ → Owner → String → Change → Except E σ) :
    List WH → σ → Owner → String → Change →
    List (WriteCall WH Owner Change) × σ × Option E
  | [], s, _, _, _ => ([], s, none)
  | wh :: rest, s, owner, name, change =>
      match callW wh s owner name change with
      | .error e => ([⟨wh, owner, name, change⟩], s, some e)
      | .ok s' =>
          let r := runWriteChain callW rest s' owner name change
          (⟨wh, owner, name, change⟩ :: r.1, r.2)

/-- The chain bound at `name`: `self.write_handlers[name]`.  The absent-key
branch is modelled from the spec: `sortedmap` is an external dependency not
under `src/`, and the spec's registry contract says the write-side lookup
returns an empty sequence if the name is absent. -/
def chainAt {RH WH : Type} (h : Heap RH WH) (self : ExpressionEngine)
    (name : String) : List WH :=
  match sortedmap.find? (wmapAt h self.write_handlers) name with
  | none => []
  | some r => listAt h.lists r

/-- Method `write(self, owner, name, change)`: write a change to an expression —
`for handler in self.write_handlers[name]: handler(owner, name, change)`. -/
def ExpressionEngine.write {RH WH Owner Change E σ : Type}
    (callW : WH → σ → Owner → String → Change → Except E σ)
    (h : Heap RH WH) (self : ExpressionEngine) (s : σ) (owner : Owner)
    (name : String) (change : Change) :
    List (WriteCall WH Owner Change) × σ × Option E :=
  runWriteChain callW (chainAt h self name) s owner name change

/-- The loop of `copy`: `for key, value in self.write_handlers.items():
w[key] = value[:]`.  `items` are the remaining entries of the source map,
`w` the new map object built so far, `lists` the store of list objects; the
slice `value[:]` allocates a fresh list object with the same elements in the
same order. -/
def copyChains {WH : Type} :
    List (String × Nat) → sortedmap Nat → List (List WH) →
    sortedmap Nat × List (List WH)
  | [], w, lists => (w, lists)
  | (k, r) :: rest, w, lists =>
      copyChains rest (sortedmap.put w k lists.length) (lists ++ [listAt lists r])

/-- Method `copy(self)`: create a copy of the expression engine —
`new = ExpressionEngine(); new.read_handlers = self.read_handlers.copy();
new.write_handlers = w = sortedmap();
for key, value in self.write_handlers.items(): w[key] = value[:]; return new`.
The read map is copied as a fresh map object with the same bindings (handler
objects shared); the write map is rebuilt binding every key to a freshly
allocated duplicate of its chain's list object. -/
def ExpressionEngine.copy {RH WH : Type} (h : Heap RH WH)
    (self : ExpressionEngine) : ExpressionEngine × Heap RH WH :=
  let rref := h.rmaps.length
  let rmaps' := h.rmaps ++ [rmapAt h self.read_handlers]
  let wl := copyChains (wmapAt h self.write_handlers) [] h.lists
  let wref := h.wmaps.length
  (⟨rref, wref⟩, ⟨rmaps', h.wmaps ++ [wl.1], wl.2⟩)

/-- Modelled from the spec: the registration interface
`add_write_handler(name, handler)` (produced by the binding compiler, not
shown in this fragment) is additive for write — the chain grows.  Appending
to an existing chain mutates that chain's list object in place; binding a new
name allocates a one-element list object and mutates the engine's write map
object. -/
def add_write_handler {RH WH : Type} (h : Heap RH WH)
    (self : ExpressionEngine) (name : String) (wh : WH) : Heap RH WH :=
  match sortedmap.find? (wmapAt h self.write_handlers) name with
  | some r => { h with lists := h.lists.set r (listAt h.lists r ++ [wh]) }
  | none =>
      { h with
        wmaps := h.wmaps.set self.write_handlers
          (sortedmap.put (wmapAt h self.write_handlers) name h.lists.length),
        lists := h.lists ++ [[wh]] }

/-- Modelled from the spec: the registration interface
`set_read_handler(name, handler)` overwrites for read — last registration
wins.  It mutates the engine's read map object in place. -/
def set_read_handler {RH WH : Type} (h : Heap RH WH)
    (self : ExpressionEngine) (name : String) (rh : RH) : Heap RH WH :=
  { h with
    rmaps := h.rmaps.set self.read_handlers
      (sortedmap.put (rmapAt h self.read_handlers) name rh) }

/-- Method `read` in explicit state-passing form: the method body is the single
statement `return self.read_handlers[name](owner, name)`, which assigns to no
attribute of `self` and to no object in the store, so the store and the
engine come back unchanged next to the result. -/
def ExpressionEngine.readS {RH WH Owner V E : Type}
    (callR : RH → Owner → String → Except E V)
    (h : Heap RH WH) (self : ExpressionEngine) (owner : Owner)
    (name : String) :
    Except (ReadError E) V × Heap RH WH × ExpressionEngine :=
  (ExpressionEngine.read callR h self owner name, h, self)

/-- Method `write` in explicit state-passing form: the method body only iterates
`self.write_handlers[name]` invoking the handlers, assigning to no attribute
of `self` and to no object in the store, so the store and the engine come
back unchanged next to the result. -/
def ExpressionEngine.writeS {RH WH Owner Change E σ : Type}
    (callW : WH → σ → Owner → String → Change → Except E σ)
    (h : Heap RH WH) (self : ExpressionEngine) (s : σ) (owner : Owner)
    (name : String) (change : Change) :
    (List (WriteCall WH Owner Change) × σ × Option E) ×
      Heap RH WH × ExpressionEngine :=
  (ExpressionEngine.write callW h self s owner name change, h, self)

/-- Well-formedness of an engine's references into the store: its two map
references are live, every chain reference in its write map is live, and —
as real sortedmaps guarantee — the keys of its write map are distinct. -/
def Heap.ValidEngine {RH WH : Type} (h : Heap RH WH)
    (e : ExpressionEngine) : Prop :=
  e.read_handlers < h.rmaps.length ∧
  e.write_handlers < h.wmaps.length ∧
  (∀ p ∈ wmapAt h e.write_handlers, p.2 < h.lists.length) ∧
  (sortedmap.keys (wmapAt h e.write_handlers)).Nodup

instance {RH WH : Type} (h : Heap RH WH) (e : ExpressionEngine) :
    Decidable (h.ValidEngine e) := by
  unfold Heap.ValidEngine
  infer_instance

/-! Concrete instances used by the witnesses. -/

/-- A concrete read-handler semantics: handler `rh` maps `(owner, name)` to
the value `rh * 10 + owner`. -/
def callR0 : Nat → Nat → String → Except Nat Nat :=
  fun rh owner _ => .ok (rh * 10 + owner)

/-- A concrete write-handler semantics: handler `99` raises `7`; every other
handler `wh` adds `wh + change` to the world state. -/
def callW0 : Nat → Nat → Nat → String → Nat → Except Nat Nat :=
  fun wh s _ _ change => if wh = 99 then .error 7 else .ok (s + wh + change)

/-- A concrete store: read map object #0 binds "y" to handler 5; write map
object #0 binds "z" to list object #0 (chain [1, 2, 3]) and "f" to list
object #1 (chain [4, 99, 6]). -/
def h0 : Heap Nat Nat :=
  ⟨[[("y", 5)]], [[("z", 0), ("f", 1)]], [[1, 2, 3], [4, 99, 6]]⟩

/-- The engine owning the two map objects of `h0`. -/
def e0 : ExpressionEngine := ⟨0, 0⟩

/-! Lemmas about the sortedmap model. -/

theorem sortedmap.find?_put_self {α : Type} (m : sortedmap α) (k : String)
    (v : α) : sortedmap.find? (sortedmap.put m k v) k = some v := by
  induction m with
  | nil => simp [sortedmap.put, sortedmap.find?]
  | cons p rest ih =>
      obtain ⟨k', v'⟩ := p
      by_cases h : k' = k
      · subst h
        simp [sortedmap.put, sortedmap.find?]
      · simp [sortedmap.put, sortedmap.find?, h, ih]

theorem sortedmap.find?_put_ne {α : Type} (m : sortedmap α) (k k' : String)
    (v : α) (hk : k' ≠ k) :
    sortedmap.find? (sortedmap.put m k v) k' = sortedmap.find? m k' := by
  induction m with
  | nil => simp [sortedmap.put, sortedmap.find?, Ne.symm hk]
  | cons p rest ih =>
      obtain ⟨k₀, v₀⟩ := p
      by_cases h : k₀ = k
      · subst h
        simp [sortedmap.put, sortedmap.find?, Ne.symm hk]
      · by_cases h' : k₀ = k'
        · subst h'
          simp [sortedmap.put, sortedmap.find?, h]
        · simp [sortedmap.put, sortedmap.find?, h, h', ih]

theorem sortedmap.find?_eq_none_iff {α : Type} (m : sortedmap α) (k : String) :
    sortedmap.find? m k = none ↔ k ∉ sortedmap.keys m := by
  induction m with
  | nil => simp [sortedmap.find?, sortedmap.keys]
  | cons p rest ih =>
      obtain ⟨k₀, v₀⟩ := p
      by_cases h : k₀ = k
      · subst h
        simp [sortedmap.find?, sortedmap.keys]
      · simp [sortedmap.find?, sortedmap.keys, h, Ne.symm h] at ih ⊢
        exact ih

theorem sortedmap.find?_mem {α : Type} {m : sortedmap α} {k : String} {v : α}
    (h : sortedmap.find? m k = some v) : (k, v) ∈ m := by
  induction m with
  | nil => simp [sortedmap.find?] at h
  | cons p rest ih =>
      obtain ⟨k₀, v₀⟩ := p
      by_cases hk : k₀ = k
      · subst hk
        simp [sortedmap.find?] at h
        subst h
        exact List.mem_cons_self _ _
      · simp [sortedmap.find?, hk] at h
        exact List.mem_cons_of_mem _ (ih h)

/-! Lemmas about the copy loop. -/

theorem copyChains_length_le {WH : Type} (items : List (String × Nat)) :
    ∀ (w : sortedmap Nat) (lists : List (List WH)),
      lists.length ≤ (copyChains items w lists).2.length := by
  induction items with
  | nil => intro w lists; simp [copyChains]
  | cons p rest ih =>
      intro w lists
      obtain ⟨k, r⟩ := p
      calc lists.length ≤ (lists ++ [listAt lists r]).length := by simp
        _ ≤ _ := ih _ _

theorem copyChains_getElem?_lt {WH : Type} (items : List (String × Nat)) :
    ∀ (w : sortedmap Nat) (lists : List (List WH)) (i : Nat),
      i < lists.length → ((copyChains items w lists).2)[i]? = lists[i]? := by
  induction items with
  | nil => intro w lists i _; simp [copyChains]
  | cons p rest ih =>
      intro w lists i hi
      obtain ⟨k, r⟩ := p
      have hi' : i < (lists ++ [listAt lists r]).length := by
        simp
        omega
      rw [show copyChains ((k, r) :: rest) w lists
            = copyChains rest (sortedmap.put w k lists.length)
                (lists ++ [listAt lists r]) from rfl]
      rw [ih _ _ i hi']
      exact List.getElem?_append_left hi

theorem copyChains_find?_not_mem {WH : Type} (items : List (String × Nat)) :
    ∀ (w : sortedmap Nat) (lists : List (List WH)) (k : String),
      k ∉ sortedmap.keys items →
      sortedmap.find? (copyChains items w lists).1 k = sortedmap.find? w k := by
  induction items with
  | nil => intro w lists k _; simp [copyChains]
  | cons p rest ih =>
      intro w lists k hk
      obtain ⟨k₀, r⟩ := p
      simp [sortedmap.keys] at hk
      rw [show copyChains ((k₀, r) :: rest) w lists
            = copyChains rest (sortedmap.put w k₀ lists.length)
                (lists ++ [listAt lists r]) from rfl]
      rw [ih _ _ k (by simp [sortedmap.keys]; exact hk.2)]
      exact sortedmap.find?_put_ne _ _ _ _ hk.1

theorem copyChains_find?_some {WH : Type} (L₀ : List (List WH))
    (items : List (String × Nat)) :
    ∀ (w : sortedmap Nat) (lists : List (List WH)) (k : String) (r : Nat),
      sortedmap.find? items k = some r →
      (sortedmap.keys items).Nodup →
      (∀ p ∈ items, p.2 < L₀.length) →
      (∀ i, i < L₀.length → lists[i]? = L₀[i]?) →
      L₀.length ≤ lists.length →
      ∃ ρ, sortedmap.find? (copyChains items w lists).1 k = some ρ ∧
        lists.length ≤ ρ ∧ ρ < (copyChains items w lists).2.length ∧
        ((copyChains items w lists).2)[ρ]? = some (listAt L₀ r) := by
  induction items with
  | nil => intro w lists k r hfind; simp [sortedmap.find?] at hfind
  | cons p rest ih =>
      intro w lists k r hfind hnodup hrefs hext hlen
      obtain ⟨k₀, r₀⟩ := p
      have hstep : copyChains ((k₀, r₀) :: rest) w lists
          = copyChains rest (sortedmap.put w k₀ lists.length)
              (lists ++ [listAt lists r₀]) := rfl
      rw [hstep]
      have hnodup' : k₀ ∉ sortedmap.keys rest ∧ (sortedmap.keys rest).Nodup := by
        simpa [sortedmap.keys] using hnodup
      by_cases hk : k₀ = k
      · subst hk
        have hr : r₀ = r := by
          simpa [sortedmap.find?] using hfind
        subst hr
        have hr₀ : r₀ < L₀.length := hrefs _ (List.mem_cons_self _ _)
        refine ⟨lists.length, ?_, le_refl _, ?_, ?_⟩
        · rw [copyChains_find?_not_mem rest _ _ _ hnodup'.1]
          exact sortedmap.find?_put_self _ _ _
        · calc lists.length < (lists ++ [listAt lists r₀]).length := by simp
            _ ≤ _ := copyChains_length_le rest _ _
        · rw [copyChains_getElem?_lt rest _ _ _ (by simp)]
          rw [List.getElem?_concat_length]
          have : listAt lists r₀ = listAt L₀ r₀ := by
            unfold listAt
            rw [hext _ hr₀]
          rw [this]
      · have hfind' : sortedmap.find? rest k = some r := by
          simpa [sortedmap.find?, hk] using hfind
        have hext' : ∀ i, i < L₀.length →
            (lists ++ [listAt lists r₀])[i]? = L₀[i]? := by
          intro i hi
          rw [List.getElem?_append_left (by omega)]
          exact hext i hi
        obtain ⟨ρ, h1, h2, h3, h4⟩ := ih (sortedmap.put w k₀ lists.length)
          (lists ++ [listAt lists r₀]) k r hfind' hnodup'.2
          (fun p hp => hrefs p (List.mem_cons_of_mem _ hp)) hext'
          (by simp; omega)
        exact ⟨ρ, h1, by simp at h2; omega, h3, h4⟩

theorem copyChains_refs {WH : Type} (items : List (String × Nat)) :
    ∀ (w : sortedmap Nat) (lists : List (List WH)) (k : String) (ρ : Nat),
      sortedmap.find? (copyChains items w lists).1 k = some ρ →
      sortedmap.find? w k = some ρ ∨
        (lists.length ≤ ρ ∧ ρ < (copyChains items w lists).2.length) := by
  induction items with
  | nil => intro w lists k ρ h; exact Or.inl (by simpa [copyChains] using h)
  | cons p rest ih =>
      intro w lists k ρ h
      obtain ⟨k₀, r₀⟩ := p
      have hstep : copyChains ((k₀, r₀) :: rest) w lists
          = copyChains rest (sortedmap.put w k₀ lists.length)
              (lists ++ [listAt lists r₀]) := rfl
      rw [hstep] at h
      rcases ih _ _ _ _ h with h' | h'
      · by_cases hk : k₀ = k
        · subst hk
          rw [sortedmap.find?_put_self] at h'
          have hρ : lists.length = ρ := Option.some.inj h'
          subst hρ
          refine Or.inr ⟨le_refl _, ?_⟩
          rw [hstep]
          have hle := copyChains_length_le rest
            (sortedmap.put w k₀ lists.length) (lists ++ [listAt lists r₀])
          simp at hle
          omega
        · rw [sortedmap.find?_put_ne _ _ _ _ (Ne.symm hk)] at h'
          exact Or.inl h'
      · rw [hstep]
        refine Or.inr ⟨?_, h'.2⟩
        have h1 := h'.1
        simp at h1
        omega

/-- Splitting a write chain: when every handler of the prefix succeeds, the
whole chain runs the prefix and continues with the rest from the state the
prefix reached. -/
theorem runWriteChain_append_ok {WH Owner Change E σ : Type}
    (callW : WH → σ → Owner → String → Change → Except E σ)
    (l₁ l₂ : List WH) :
    ∀ (s s' : σ) (owner : Owner) (name : String) (change : Change)
      (tr : List (WriteCall WH Owner Change)),
      runWriteChain callW l₁ s owner name change = (tr, s', none) →
      runWriteChain callW (l₁ ++ l₂) s owner name change =
        (tr ++ (runWriteChain callW l₂ s' owner name change).1,
          (runWriteChain callW l₂ s' owner name change).2) := by
  induction l₁ with
  | nil =>
      intro s s' owner name change tr hrun
      simp [runWriteChain] at hrun
      simp [hrun.1, hrun.2]
  | cons wh rest ih =>
      intro s s' owner name change tr hrun
      cases hc : callW wh s owner name change with
      | error e =>
          simp [runWriteChain, hc] at hrun
      | ok s₁ =>
          simp only [runWriteChain, hc] at hrun
          have htr : tr = ⟨wh, owner, name, change⟩ ::
              (runWriteChain callW rest s₁ owner name change).1 := by
            have := congrArg Prod.fst hrun
            simpa using this.symm
          have hrest : (runWriteChain callW rest s₁ owner name change).2
              = (s', none) := by
            have := congrArg Prod.snd hrun
            simpa using this
          have hrest' : runWriteChain callW rest s₁ owner name change
              = ((runWriteChain callW rest s₁ owner name change).1, s', none) := by
            rw [← hrest]
          rw [List.cons_append]
          simp only [runWriteChain, hc]
          rw [ih s₁ s' owner name change _ hrest']
          simp [htr]

/-! The claims about dispatch. -/

/-- C1: for every engine with a read handler `rh` registered in
`read_handlers` at `name`, `read(owner, name)` invokes `rh` with the
arguments `(owner, name)` and returns `rh`'s result unchanged, for every
owner (a failure raised by the handler comes back as exactly that failure,
tagged `handlerRaised`; a value comes back as that value). -/
theorem read_invokes_bound_handler {RH WH Owner V E : Type}
    (callR : RH → Owner → String → Except E V) (h : Heap RH WH)
    (e : ExpressionEngine) (owner : Owner) (name : String) (rh : RH)
    (hbound : sortedmap.find? (rmapAt h e.read_handlers) name = some rh) :
    ExpressionEngine.read callR h e owner name
      = (callR rh owner name).mapError ReadError.handlerRaised := by
  unfold ExpressionEngine.read
  rw [hbound]

/-- C6: for every engine, owner and name with no read handler registered at
that name, `read(owner, name)` fails with the `NoReadHandler` error, which
propagates to the caller: no default value is returned. -/
theorem read_unbound_fails_noReadHandler {RH WH Owner V E : Type}
    (callR : RH → Owner → String → Except E V) (h : Heap RH WH)
    (e : ExpressionEngine) (owner : Owner) (name : String)
    (hnone : sortedmap.find? (rmapAt h e.read_handlers) name = none) :
    ExpressionEngine.read callR h e owner name
      = .error ReadError.noReadHandler := by
  unfold ExpressionEngine.read
  rw [hnone]

/-- C2: for every engine whose write-handler chain at `name` is
`[h1, h2, h3]`, `write(owner, name, change)` invokes `h1`, then `h2`, then
`h3`, in exactly that registration order, each invoked with the identical
arguments `(owner, name, change)`, with the same change value forwarded
unmodified to every handler (stated for a run in which each handler
completes normally, threading the world state it left behind). -/
theorem write_runs_chain_in_order {RH WH Owner Change E σ : Type}
    (callW : WH → σ → Owner → String → Change → Except E σ)
    (h : Heap RH WH) (e : ExpressionEngine) (s : σ) (owner : Owner)
    (name : String) (change : Change) (h1 h2 h3 : WH) (s1 s2 s3 : σ)
    (hchain : chainAt h e name = [h1, h2, h3])
    (hc1 : callW h1 s owner name change = .ok s1)
    (hc2 : callW h2 s1 owner name change = .ok s2)
    (hc3 : callW h3 s2 owner name change = .ok s3) :
    ExpressionEngine.write callW h e s owner name change
      = ([⟨h1, owner, name, change⟩, ⟨h2, owner, name, change⟩,
          ⟨h3, owner, name, change⟩], s3, none) := by
  unfold ExpressionEngine.write
  rw [hchain]
  simp [runWriteChain, hc1, hc2, hc3]

/-- C3: for every engine, owner, name and change, if the name is absent from
`write_handlers`, then `write(owner, name, change)` is a no-op: it invokes no
handler (empty trace), raises no exception (no propagated failure), and has
no side effect (the world state is returned unchanged). -/
theorem write_unbound_is_noop {RH WH Owner Change E σ : Type}
    (callW : WH → σ → Owner → String → Change → Except E σ)
    (h : Heap RH WH) (e : ExpressionEngine) (s : σ) (owner : Owner)
    (name : String) (change : Change)
    (hnone : sortedmap.find? (wmapAt h e.write_handlers) name = none) :
    ExpressionEngine.write callW h e s owner name change = ([], s, none) := by
  unfold ExpressionEngine.write chainAt
  rw [hnone]
  rfl

/-- C7: for every engine whose write-handler chain at `name` splits as
`pre ++ failing :: post`, if every handler of `pre` completes and the next
handler raises a failure, that failure propagates verbatim to the caller
(no catching or wrapping: the returned failure is exactly the one raised)
and the remaining handlers `post` are not invoked (the trace ends at the
failing handler's invocation). -/
theorem write_failure_aborts_chain {RH WH Owner Change E σ : Type}
    (callW : WH → σ → Owner → String → Change → Except E σ)
    (h : Heap RH WH) (e : ExpressionEngine) (s s' : σ) (owner : Owner)
    (name : String) (change : Change) (pre post : List WH) (failing : WH)
    (tr : List (WriteCall WH Owner Change)) (err : E)
    (hchain : chainAt h e name = pre ++ failing :: post)
    (hpre : runWriteChain callW pre s owner name change = (tr, s', none))
    (hfail : callW failing s' owner name change = .error err) :
    ExpressionEngine.write callW h e s owner name change
      = (tr ++ [⟨failing, owner, name, change⟩], s', some err) := by
  unfold ExpressionEngine.write
  rw [hchain]
  rw [runWriteChain_append_ok callW pre (failing :: post) s s' owner name
    change tr hpre]
  simp [runWriteChain, hfail]

/-- C9: the dispatch operations never modify the engine's own state: for
every engine, owner, name and change, after `read` or `write` completes
(normally or with a propagated failure carried in the result), the store —
holding the engine's `read_handlers` and `write_handlers` map objects and
every per-name chain list object — and the engine are exactly as before the
call. -/
theorem dispatch_preserves_engine_state {RH WH Owner Change V E σ : Type}
    (callR : RH → Owner → String → Except E V)
    (callW : WH → σ → Owner → String → Change → Except E σ)
    (h : Heap RH WH) (e : ExpressionEngine) (s : σ) (owner : Owner)
    (name : String) (change : Change) :
    (ExpressionEngine.readS callR h e owner name).2 = (h, e) ∧
    (ExpressionEngine.writeS callW h e s owner name change).2 = (h, e) :=
  ⟨rfl, rfl⟩

/-! Unfolding equations and preservation lemmas for `copy`. -/

theorem copy_fst {RH WH : Type} (h : Heap RH WH) (e : ExpressionEngine) :
    (ExpressionEngine.copy h e).1
      = ⟨h.rmaps.length, h.wmaps.length⟩ := rfl

theorem copy_snd_rmaps {RH WH : Type} (h : Heap RH WH) (e : ExpressionEngine) :
    (ExpressionEngine.copy h e).2.rmaps
      = h.rmaps ++ [rmapAt h e.read_handlers] := rfl

theorem copy_snd_wmaps {RH WH : Type} (h : Heap RH WH) (e : ExpressionEngine) :
    (ExpressionEngine.copy h e).2.wmaps
      = h.wmaps ++ [(copyChains (wmapAt h e.write_handlers) [] h.lists).1] :=
  rfl

theorem copy_snd_lists {RH WH : Type} (h : Heap RH WH) (e : ExpressionEngine) :
    (ExpressionEngine.copy h e).2.lists
      = (copyChains (wmapAt h e.write_handlers) [] h.lists).2 := rfl

/-- The copy's read map object holds the same bindings as the source's. -/
theorem copy_rmapAt_new {RH WH : Type} (h : Heap RH WH)
    (e : ExpressionEngine) :
    rmapAt (ExpressionEngine.copy h e).2 (ExpressionEngine.copy h e).1.read_handlers
      = rmapAt h e.read_handlers := by
  unfold rmapAt
  rw [copy_snd_rmaps, copy_fst]
  rw [List.getElem?_concat_length]
  rfl

/-- Map objects live before the copy are untouched by it (read side). -/
theorem copy_rmaps_getElem? {RH WH : Type} (h : Heap RH WH)
    (e : ExpressionEngine) (i : Nat) (hi : i < h.rmaps.length) :
    ((ExpressionEngine.copy h e).2.rmaps)[i]? = (h.rmaps)[i]? := by
  rw [copy_snd_rmaps]
  exact List.getElem?_append_left hi

/-- Map objects live before the copy are untouched by it (write side). -/
theorem copy_wmaps_getElem? {RH WH : Type} (h : Heap RH WH)
    (e : ExpressionEngine) (i : Nat) (hi : i < h.wmaps.length) :
    ((ExpressionEngine.copy h e).2.wmaps)[i]? = (h.wmaps)[i]? := by
  rw [copy_snd_wmaps]
  exact List.getElem?_append_left hi

/-- List objects live before the copy are untouched by it. -/
theorem copy_lists_getElem? {RH WH : Type} (h : Heap RH WH)
    (e : ExpressionEngine) (i : Nat) (hi : i < h.lists.length) :
    ((ExpressionEngine.copy h e).2.lists)[i]? = (h.lists)[i]? := by
  rw [copy_snd_lists]
  exact copyChains_getElem?_lt _ _ _ _ hi

/-- The source engine's read map dereferences unchanged after the copy. -/
theorem copy_rmapAt_old {RH WH : Type} (h : Heap RH WH)
    (e : ExpressionEngine) (hv : e.read_handlers < h.rmaps.length) :
    rmapAt (ExpressionEngine.copy h e).2 e.read_handlers
      = rmapAt h e.read_handlers := by
  unfold rmapAt
  rw [copy_rmaps_getElem? h e _ hv]

/-- The source engine's write map dereferences unchanged after the copy. -/
theorem copy_wmapAt_old {RH WH : Type} (h : Heap RH WH)
    (e : ExpressionEngine) (hv : e.write_handlers < h.wmaps.length) :
    wmapAt (ExpressionEngine.copy h e).2 e.write_handlers
      = wmapAt h e.write_handlers := by
  unfold wmapAt
  rw [copy_wmaps_getElem? h e _ hv]

/-- The copy's write map object is the one the copy loop built. -/
theorem copy_wmapAt_new {RH WH : Type} (h : Heap RH WH)
    (e : ExpressionEngine) :
    wmapAt (ExpressionEngine.copy h e).2 (ExpressionEngine.copy h e).1.write_handlers
      = (copyChains (wmapAt h e.write_handlers) [] h.lists).1 := by
  unfold wmapAt
  rw [copy_snd_wmaps, copy_fst]
  rw [List.getElem?_concat_length]
  rfl

/-- Every chain reference in the copy's write map is freshly allocated: at or
beyond the source store's end, and within the new store. -/
theorem copy_new_refs {RH WH : Type} (h : Heap RH WH) (e : ExpressionEngine)
    (k : String) (ρ : Nat)
    (hfind : sortedmap.find?
      (wmapAt (ExpressionEngine.copy h e).2 (ExpressionEngine.copy h e).1.write_handlers) k
      = some ρ) :
    h.lists.length ≤ ρ ∧ ρ < (ExpressionEngine.copy h e).2.lists.length := by
  rw [copy_wmapAt_new] at hfind
  rcases copyChains_refs _ _ _ _ _ hfind with h' | h'
  · simp [sortedmap.find?] at h'
  · rw [copy_snd_lists]
    exact h'

/-- A bound chain reference of a valid engine is live. -/
theorem valid_chain_ref_lt {RH WH : Type} {h : Heap RH WH}
    {e : ExpressionEngine} {n : String} {r : Nat}
    (hv : h.ValidEngine e)
    (hfind : sortedmap.find? (wmapAt h e.write_handlers) n = some r) :
    r < h.lists.length :=
  hv.2.2.1 _ (sortedmap.find?_mem hfind)

/-- The copy dispatches the same chain as the source did, at every name. -/
theorem copy_chainAt_new {RH WH : Type} (h : Heap RH WH)
    (e : ExpressionEngine) (hv : h.ValidEngine e) (n : String) :
    chainAt (ExpressionEngine.copy h e).2 (ExpressionEngine.copy h e).1 n
      = chainAt h e n := by
  unfold chainAt
  rw [copy_wmapAt_new]
  cases hfind : sortedmap.find? (wmapAt h e.write_handlers) n with
  | none =>
      rw [copyChains_find?_not_mem _ _ _ _
        ((sortedmap.find?_eq_none_iff _ _).mp hfind)]
      rfl
  | some r =>
      obtain ⟨ρ, h1, _, _, h4⟩ := copyChains_find?_some
        h.lists (wmapAt h e.write_handlers) [] h.lists n r hfind
        hv.2.2.2 hv.2.2.1 (fun _ _ => rfl) (le_refl _)
      rw [h1]
      show listAt (copyChains (wmapAt h e.write_handlers) [] h.lists).2 ρ
        = listAt h.lists r
      unfold listAt
      rw [h4]
      rfl

/-- The source engine dispatches the same chain after the copy as before. -/
theorem copy_chainAt_old {RH WH : Type} (h : Heap RH WH)
    (e : ExpressionEngine) (hv : h.ValidEngine e) (n : String) :
    chainAt (ExpressionEngine.copy h e).2 e n = chainAt h e n := by
  unfold chainAt
  rw [copy_wmapAt_old h e hv.2.1]
  cases hfind : sortedmap.find? (wmapAt h e.write_handlers) n with
  | none => rfl
  | some r =>
      show listAt (ExpressionEngine.copy h e).2.lists r = listAt h.lists r
      unfold listAt
      rw [copy_lists_getElem? h e _ (valid_chain_ref_lt hv hfind)]

/-- The chain `chainAt` depends only on the engine's write map object and the list
objects it references. -/
theorem chainAt_congr {RH WH : Type} (h₁ h₂ : Heap RH WH)
    (e : ExpressionEngine) (m : String)
    (hw : wmapAt h₁ e.write_handlers = wmapAt h₂ e.write_handlers)
    (hl : ∀ r, sortedmap.find? (wmapAt h₂ e.write_handlers) m = some r →
      listAt h₁.lists r = listAt h₂.lists r) :
    chainAt h₁ e m = chainAt h₂ e m := by
  unfold chainAt
  rw [hw]
  cases hfind : sortedmap.find? (wmapAt h₂ e.write_handlers) m with
  | none => rfl
  | some r => exact hl r hfind

/-- Dispatch via `read` depends only on the engine's read map object. -/
theorem read_congr {RH WH Owner V E : Type}
    (callR : RH → Owner → String → Except E V) (h₁ h₂ : Heap RH WH)
    (e : ExpressionEngine) (owner : Owner) (m : String)
    (hr : rmapAt h₁ e.read_handlers = rmapAt h₂ e.read_handlers) :
    ExpressionEngine.read callR h₁ e owner m
      = ExpressionEngine.read callR h₂ e owner m := by
  unfold ExpressionEngine.read
  rw [hr]

/-- The copy's map references are distinct from the source's (read side). -/
theorem copy_read_ref_ne {RH WH : Type} (h : Heap RH WH)
    (e : ExpressionEngine) (hv : h.ValidEngine e) :
    (ExpressionEngine.copy h e).1.read_handlers ≠ e.read_handlers := by
  rw [copy_fst]
  show h.rmaps.length ≠ e.read_handlers
  exact Nat.ne_of_gt hv.1

/-- The copy's map references are distinct from the source's (write side). -/
theorem copy_write_ref_ne {RH WH : Type} (h : Heap RH WH)
    (e : ExpressionEngine) (hv : h.ValidEngine e) :
    (ExpressionEngine.copy h e).1.write_handlers ≠ e.write_handlers := by
  rw [copy_fst]
  show h.wmaps.length ≠ e.write_handlers
  exact Nat.ne_of_gt hv.2.1

/-- Growing a chain of the copy leaves every chain the source dispatches
unchanged. -/
theorem add_to_copy_preserves_source_chain {RH WH : Type} (h : Heap RH WH)
    (e1 : ExpressionEngine) (hv : h.ValidEngine e1) (n : String) (wh : WH)
    (m : String) :
    chainAt (add_write_handler (ExpressionEngine.copy h e1).2
        (ExpressionEngine.copy h e1).1 n wh) e1 m
      = chainAt (ExpressionEngine.copy h e1).2 e1 m := by
  unfold add_write_handler
  cases hfind : sortedmap.find?
      (wmapAt (ExpressionEngine.copy h e1).2
        (ExpressionEngine.copy h e1).1.write_handlers) n with
  | some ρ =>
      apply chainAt_congr
      · rfl
      · intro r hr
        have hr' : r < h.lists.length := by
          rw [copy_wmapAt_old h e1 hv.2.1] at hr
          exact valid_chain_ref_lt hv hr
        have hρ := (copy_new_refs h e1 n ρ hfind).1
        show listAt ((ExpressionEngine.copy h e1).2.lists.set ρ
          (listAt (ExpressionEngine.copy h e1).2.lists ρ ++ [wh])) r
          = listAt (ExpressionEngine.copy h e1).2.lists r
        unfold listAt
        rw [List.getElem?_set_ne (by omega)]
  | none =>
      apply chainAt_congr
      · show ((ExpressionEngine.copy h e1).2.wmaps.set
            (ExpressionEngine.copy h e1).1.write_handlers
            (sortedmap.put _ n (ExpressionEngine.copy h e1).2.lists.length))[e1.write_handlers]?.getD []
          = wmapAt (ExpressionEngine.copy h e1).2 e1.write_handlers
        rw [List.getElem?_set_ne (copy_write_ref_ne h e1 hv)]
        rfl
      · intro r hr
        have hr' : r < h.lists.length := by
          rw [copy_wmapAt_old h e1 hv.2.1] at hr
          exact valid_chain_ref_lt hv hr
        have hlen : h.lists.length ≤ (ExpressionEngine.copy h e1).2.lists.length := by
          rw [copy_snd_lists]
          exact copyChains_length_le _ _ _
        show listAt ((ExpressionEngine.copy h e1).2.lists ++ [[wh]]) r
          = listAt (ExpressionEngine.copy h e1).2.lists r
        unfold listAt
        rw [List.getElem?_append_left (by omega)]

/-- Growing a chain of the source leaves every chain the copy dispatches
unchanged. -/
theorem add_to_source_preserves_copy_chain {RH WH : Type} (h : Heap RH WH)
    (e1 : ExpressionEngine) (hv : h.ValidEngine e1) (n : String) (wh : WH)
    (m : String) :
    chainAt (add_write_handler (ExpressionEngine.copy h e1).2 e1 n wh)
        (ExpressionEngine.copy h e1).1 m
      = chainAt (ExpressionEngine.copy h e1).2 (ExpressionEngine.copy h e1).1 m := by
  unfold add_write_handler
  cases hfind : sortedmap.find?
      (wmapAt (ExpressionEngine.copy h e1).2 e1.write_handlers) n with
  | some r =>
      have hr' : r < h.lists.length := by
        rw [copy_wmapAt_old h e1 hv.2.1] at hfind
        exact valid_chain_ref_lt hv hfind
      apply chainAt_congr
      · rfl
      · intro ρ hρfind
        have hρ := (copy_new_refs h e1 m ρ hρfind).1
        show listAt ((ExpressionEngine.copy h e1).2.lists.set r
          (listAt (ExpressionEngine.copy h e1).2.lists r ++ [wh])) ρ
          = listAt (ExpressionEngine.copy h e1).2.lists ρ
        unfold listAt
        rw [List.getElem?_set_ne (by omega)]
  | none =>
      apply chainAt_congr
      · show ((ExpressionEngine.copy h e1).2.wmaps.set e1.write_handlers
            (sortedmap.put _ n (ExpressionEngine.copy h e1).2.lists.length))[(ExpressionEngine.copy h e1).1.write_handlers]?.getD []
          = wmapAt (ExpressionEngine.copy h e1).2 (ExpressionEngine.copy h e1).1.write_handlers
        rw [List.getElem?_set_ne (Ne.symm (copy_write_ref_ne h e1 hv))]
        rfl
      · intro ρ hρfind
        have hρ := (copy_new_refs h e1 m ρ hρfind).2
        show listAt ((ExpressionEngine.copy h e1).2.lists ++ [[wh]]) ρ
          = listAt (ExpressionEngine.copy h e1).2.lists ρ
        unfold listAt
        rw [List.getElem?_append_left hρ]

/-- Re-binding a read handler on the copy leaves the source's read map
object unchanged. -/
theorem set_on_copy_preserves_source_rmap {RH WH : Type} (h : Heap RH WH)
    (e1 : ExpressionEngine) (hv : h.ValidEngine e1) (n : String) (rh : RH) :
    rmapAt (set_read_handler (ExpressionEngine.copy h e1).2
        (ExpressionEngine.copy h e1).1 n rh) e1.read_handlers
      = rmapAt (ExpressionEngine.copy h e1).2 e1.read_handlers := by
  unfold set_read_handler rmapAt
  show ((ExpressionEngine.copy h e1).2.rmaps.set
      (ExpressionEngine.copy h e1).1.read_handlers _)[e1.read_handlers]?.getD []
    = ((ExpressionEngine.copy h e1).2.rmaps)[e1.read_handlers]?.getD []
  rw [List.getElem?_set_ne (copy_read_ref_ne h e1 hv)]

/-- Re-binding a read handler on the source leaves the copy's read map
object unchanged. -/
theorem set_on_source_preserves_copy_rmap {RH WH : Type} (h : Heap RH WH)
    (e1 : ExpressionEngine) (hv : h.ValidEngine e1) (n : String) (rh : RH) :
    rmapAt (set_read_handler (ExpressionEngine.copy h e1).2 e1 n rh)
        (ExpressionEngine.copy h e1).1.read_handlers
      = rmapAt (ExpressionEngine.copy h e1).2
          (ExpressionEngine.copy h e1).1.read_handlers := by
  unfold set_read_handler rmapAt
  show ((ExpressionEngine.copy h e1).2.rmaps.set e1.read_handlers
      _)[(ExpressionEngine.copy h e1).1.read_handlers]?.getD []
    = ((ExpressionEngine.copy h e1).2.rmaps)[(ExpressionEngine.copy h e1).1.read_handlers]?.getD []
  rw [List.getElem?_set_ne (Ne.symm (copy_read_ref_ne h e1 hv))]

theorem read_invokes_bound_handler_witness :
    sortedmap.find? (rmapAt h0 e0.read_handlers) "y" = some 5 ∧
    ExpressionEngine.read callR0 h0 e0 4 "y"
      = (callR0 5 4 "y").mapError ReadError.handlerRaised :=
  ⟨by decide, read_invokes_bound_handler callR0 h0 e0 4 "y" 5 (by decide)⟩

theorem read_unbound_fails_noReadHandler_witness :
    sortedmap.find? (rmapAt h0 e0.read_handlers) "m" = none ∧
    ExpressionEngine.read callR0 h0 e0 4 "m"
      = .error ReadError.noReadHandler :=
  ⟨by decide, read_unbound_fails_noReadHandler callR0 h0 e0 4 "m" (by decide)⟩

theorem write_runs_chain_in_order_witness :
    chainAt h0 e0 "z" = [1, 2, 3] ∧
    ExpressionEngine.write callW0 h0 e0 0 9 "z" 2
      = ([⟨1, 9, "z", 2⟩, ⟨2, 9, "z", 2⟩, ⟨3, 9, "z", 2⟩], 12, none) :=
  ⟨by decide, write_runs_chain_in_order callW0 h0 e0 0 9 "z" 2 1 2 3 3 7 12
    (by decide) rfl rfl rfl⟩

theorem write_unbound_is_noop_witness :
    sortedmap.find? (wmapAt h0 e0.write_handlers) "m" = none ∧
    ExpressionEngine.write callW0 h0 e0 0 9 "m" 2 = ([], 0, none) :=
  ⟨by decide, write_unbound_is_noop callW0 h0 e0 0 9 "m" 2 (by decide)⟩

theorem write_failure_aborts_chain_witness :
    chainAt h0 e0 "f" = [4] ++ 99 :: [6] ∧
    callW0 99 6 9 "f" 2 = .error 7 ∧
    ExpressionEngine.write callW0 h0 e0 0 9 "f" 2
      = ([⟨4, 9, "f", 2⟩] ++ [⟨99, 9, "f", 2⟩], 6, some 7) :=
  ⟨by decide, rfl,
    write_failure_aborts_chain callW0 h0 e0 0 6 9 "f" 2 [4] [6] 99
      [⟨4, 9, "f", 2⟩] 7 (by decide) rfl rfl⟩

/-- C5: immediately after `E2 = E1.copy()`, for every name and every owner,
`E1.read(o, n) == E2.read(o, n)`, and `E1.write(o, n, c)` and
`E2.write(o, n, c)` produce identical handler-invocation sequences: the same
handlers, in the same order, with the same arguments (and the same final
world state and propagated failure). -/
theorem copy_preserves_behavior {RH WH Owner Change V E σ : Type}
    (callR : RH → Owner → String → Except E V)
    (callW : WH → σ → Owner → String → Change → Except E σ)
    (h : Heap RH WH) (e1 : ExpressionEngine) (hv : h.ValidEngine e1) :
    (∀ (owner : Owner) (n : String),
      ExpressionEngine.read callR (ExpressionEngine.copy h e1).2 e1 owner n
        = ExpressionEngine.read callR (ExpressionEngine.copy h e1).2
            (ExpressionEngine.copy h e1).1 owner n) ∧
    (∀ (s : σ) (owner : Owner) (n : String) (c : Change),
      ExpressionEngine.write callW (ExpressionEngine.copy h e1).2 e1 s owner n c
        = ExpressionEngine.write callW (ExpressionEngine.copy h e1).2
            (ExpressionEngine.copy h e1).1 s owner n c) := by
  constructor
  · intro owner n
    unfold ExpressionEngine.read
    rw [copy_rmapAt_old h e1 hv.1, copy_rmapAt_new]
  · intro s owner n c
    unfold ExpressionEngine.write
    rw [copy_chainAt_old h e1 hv n, copy_chainAt_new h e1 hv n]

theorem copy_preserves_behavior_witness :
    ExpressionEngine.read callR0 (ExpressionEngine.copy h0 e0).2 e0 4 "y"
      = ExpressionEngine.read callR0 (ExpressionEngine.copy h0 e0).2
          (ExpressionEngine.copy h0 e0).1 4 "y" ∧
    ExpressionEngine.write callW0 (ExpressionEngine.copy h0 e0).2 e0 0 9 "z" 2
      = ExpressionEngine.write callW0 (ExpressionEngine.copy h0 e0).2
          (ExpressionEngine.copy h0 e0).1 0 9 "z" 2 :=
  ⟨(copy_preserves_behavior callR0 callW0 h0 e0 (by decide)).1 4 "y",
    (copy_preserves_behavior callR0 callW0 h0 e0 (by decide)).2 0 9 "z" 2⟩

/-- C8: for `E2 = E1.copy()`: `E2`'s read-handler map is a new map object
(a distinct reference) holding the same bindings, the handler values shared;
`E2`'s write-handler map is a new map object with the same keys, and each
key's chain is a newly allocated list object (a reference distinct from
`E1`'s — indeed fresh in the store) holding the same handler values in the
same order. -/
theorem copy_structure {RH WH : Type} (h : Heap RH WH)
    (e1 : ExpressionEngine) (hv : h.ValidEngine e1) :
    ((ExpressionEngine.copy h e1).1.read_handlers ≠ e1.read_handlers ∧
      rmapAt (ExpressionEngine.copy h e1).2
          (ExpressionEngine.copy h e1).1.read_handlers
        = rmapAt h e1.read_handlers) ∧
    ((ExpressionEngine.copy h e1).1.write_handlers ≠ e1.write_handlers ∧
      ∀ k, (sortedmap.find? (wmapAt (ExpressionEngine.copy h e1).2
              (ExpressionEngine.copy h e1).1.write_handlers) k).isSome
        = (sortedmap.find? (wmapAt h e1.write_handlers) k).isSome) ∧
    (∀ (k : String) (r : Nat),
      sortedmap.find? (wmapAt h e1.write_handlers) k = some r →
      ∃ ρ, sortedmap.find? (wmapAt (ExpressionEngine.copy h e1).2
              (ExpressionEngine.copy h e1).1.write_handlers) k = some ρ ∧
        ρ ≠ r ∧ h.lists.length ≤ ρ ∧
        listAt (ExpressionEngine.copy h e1).2.lists ρ = listAt h.lists r) := by
  refine ⟨⟨copy_read_ref_ne h e1 hv, copy_rmapAt_new h e1⟩,
    ⟨copy_write_ref_ne h e1 hv, ?_⟩, ?_⟩
  · intro k
    rw [copy_wmapAt_new]
    cases hfind : sortedmap.find? (wmapAt h e1.write_handlers) k with
    | none =>
        rw [copyChains_find?_not_mem _ _ _ _
          ((sortedmap.find?_eq_none_iff _ _).mp hfind)]
        rfl
    | some r =>
        obtain ⟨ρ, h1, _, _, _⟩ := copyChains_find?_some
          h.lists (wmapAt h e1.write_handlers) [] h.lists k r hfind
          hv.2.2.2 hv.2.2.1 (fun _ _ => rfl) (le_refl _)
        rw [h1]
        rfl
  · intro k r hfind
    obtain ⟨ρ, h1, h2, h3, h4⟩ := copyChains_find?_some
      h.lists (wmapAt h e1.write_handlers) [] h.lists k r hfind
      hv.2.2.2 hv.2.2.1 (fun _ _ => rfl) (le_refl _)
    have hr : r < h.lists.length := valid_chain_ref_lt hv hfind
    refine ⟨ρ, ?_, by omega, h2, ?_⟩
    · rw [copy_wmapAt_new]
      exact h1
    · show listAt (ExpressionEngine.copy h e1).2.lists ρ = listAt h.lists r
      rw [copy_snd_lists]
      unfold listAt
      rw [h4]
      rfl

theorem copy_structure_witness :
    Heap.ValidEngine h0 e0 ∧
    sortedmap.find? (wmapAt h0 e0.write_handlers) "z" = some 0 ∧
    ((ExpressionEngine.copy h0 e0).1.read_handlers ≠ e0.read_handlers ∧
      rmapAt (ExpressionEngine.copy h0 e0).2
          (ExpressionEngine.copy h0 e0).1.read_handlers
        = rmapAt h0 e0.read_handlers) ∧
    (∃ ρ, sortedmap.find? (wmapAt (ExpressionEngine.copy h0 e0).2
            (ExpressionEngine.copy h0 e0).1.write_handlers) "z" = some ρ ∧
      ρ ≠ 0 ∧ h0.lists.length ≤ ρ ∧
      listAt (ExpressionEngine.copy h0 e0).2.lists ρ = listAt h0.lists 0) :=
  ⟨by decide, by decide, (copy_structure h0 e0 (by decide)).1,
    (copy_structure h0 e0 (by decide)).2.2 "z" 0 (by decide)⟩

/-- C10: `copy` never mutates the source engine: after the copy, `E1`'s
references are of course unchanged, the map objects they denote are
unchanged in the store, every chain list object referenced from `E1`'s write
map is the same object with the same elements in the same order, and `E1`
dispatches exactly as before. -/
theorem copy_does_not_mutate_source {RH WH : Type} (h : Heap RH WH)
    (e1 : ExpressionEngine) (hv : h.ValidEngine e1) :
    ((ExpressionEngine.copy h e1).2.rmaps)[e1.read_handlers]?
        = (h.rmaps)[e1.read_handlers]? ∧
    ((ExpressionEngine.copy h e1).2.wmaps)[e1.write_handlers]?
        = (h.wmaps)[e1.write_handlers]? ∧
    (∀ p ∈ wmapAt h e1.write_handlers,
      ((ExpressionEngine.copy h e1).2.lists)[p.2]? = (h.lists)[p.2]?) ∧
    (∀ n, chainAt (ExpressionEngine.copy h e1).2 e1 n = chainAt h e1 n) ∧
    rmapAt (ExpressionEngine.copy h e1).2 e1.read_handlers
        = rmapAt h e1.read_handlers :=
  ⟨copy_rmaps_getElem? h e1 _ hv.1, copy_wmaps_getElem? h e1 _ hv.2.1,
    fun p hp => copy_lists_getElem? h e1 _ (hv.2.2.1 p hp),
    fun n => copy_chainAt_old h e1 hv n, copy_rmapAt_old h e1 hv.1⟩

theorem copy_does_not_mutate_source_witness :
    Heap.ValidEngine h0 e0 ∧
    ((ExpressionEngine.copy h0 e0).2.rmaps)[e0.read_handlers]?
        = (h0.rmaps)[e0.read_handlers]? ∧
    chainAt (ExpressionEngine.copy h0 e0).2 e0 "z" = chainAt h0 e0 "z" :=
  ⟨by decide, (copy_does_not_mutate_source h0 e0 (by decide)).1,
    (copy_does_not_mutate_source h0 e0 (by decide)).2.2.2.1 "z"⟩

/-- C4: for `E2 = E1.copy()`, a subsequent mutation of one engine's handler
registrations — appending a write handler to one engine's chain at a name
(or binding a fresh name), or re-binding a read handler — leaves the other
engine's dispatch behavior unchanged, in both directions: `E1.write` invokes
exactly the same handlers as before the mutation of `E2`, and vice versa;
likewise for `read` under re-binding. -/
theorem copy_engines_independent {RH WH Owner Change V E σ : Type}
    (callR : RH → Owner → String → Except E V)
    (callW : WH → σ → Owner → String → Change → Except E σ)
    (h : Heap RH WH) (e1 : ExpressionEngine) (hv : h.ValidEngine e1) :
    (∀ (n : String) (wh : WH) (s : σ) (owner : Owner) (m : String) (c : Change),
      ExpressionEngine.write callW
        (add_write_handler (ExpressionEngine.copy h e1).2
          (ExpressionEngine.copy h e1).1 n wh) e1 s owner m c
      = ExpressionEngine.write callW (ExpressionEngine.copy h e1).2
          e1 s owner m c) ∧
    (∀ (n : String) (wh : WH) (s : σ) (owner : Owner) (m : String) (c : Change),
      ExpressionEngine.write callW
        (add_write_handler (ExpressionEngine.copy h e1).2 e1 n wh)
        (ExpressionEngine.copy h e1).1 s owner m c
      = ExpressionEngine.write callW (ExpressionEngine.copy h e1).2
          (ExpressionEngine.copy h e1).1 s owner m c) ∧
    (∀ (n : String) (rh : RH) (owner : Owner) (m : String),
      ExpressionEngine.read callR
        (set_read_handler (ExpressionEngine.copy h e1).2
          (ExpressionEngine.copy h e1).1 n rh) e1 owner m
      = ExpressionEngine.read callR (ExpressionEngine.copy h e1).2
          e1 owner m) ∧
    (∀ (n : String) (rh : RH) (owner : Owner) (m : String),
      ExpressionEngine.read callR
        (set_read_handler (ExpressionEngine.copy h e1).2 e1 n rh)
        (ExpressionEngine.copy h e1).1 owner m
      = ExpressionEngine.read callR (ExpressionEngine.copy h e1).2
          (ExpressionEngine.copy h e1).1 owner m) := by
  refine ⟨?_, ?_, ?_, ?_⟩
  · intro n wh s owner m c
    unfold ExpressionEngine.write
    rw [add_to_copy_preserves_source_chain h e1 hv n wh m]
  · intro n wh s owner m c
    unfold ExpressionEngine.write
    rw [add_to_source_preserves_copy_chain h e1 hv n wh m]
  · intro n rh owner m
    apply read_congr
    exact set_on_copy_preserves_source_rmap h e1 hv n rh
  · intro n rh owner m
    apply read_congr
    exact set_on_source_preserves_copy_rmap h e1 hv n rh

theorem copy_engines_independent_witness :
    Heap.ValidEngine h0 e0 ∧
    ExpressionEngine.write callW0
      (add_write_handler (ExpressionEngine.copy h0 e0).2
        (ExpressionEngine.copy h0 e0).1 "z" 8) e0 0 9 "z" 2
      = ExpressionEngine.write callW0 (ExpressionEngine.copy h0 e0).2
          e0 0 9 "z" 2 ∧
    ExpressionEngine.write callW0
      (add_write_handler (ExpressionEngine.copy h0 e0).2 e0 "q" 8)
      (ExpressionEngine.copy h0 e0).1 0 9 "z" 2
      = ExpressionEngine.write callW0 (ExpressionEngine.copy h0 e0).2
          (ExpressionEngine.copy h0 e0).1 0 9 "z" 2 ∧
    ExpressionEngine.read callR0
      (set_read_handler (ExpressionEngine.copy h0 e0).2
        (ExpressionEngine.copy h0 e0).1 "y" 6) e0 4 "y"
      = ExpressionEngine.read callR0 (ExpressionEngine.copy h0 e0).2
          e0 4 "y" ∧
    ExpressionEngine.read callR0
      (set_read_handler (ExpressionEngine.copy h0 e0).2 e0 "y" 6)
      (ExpressionEngine.copy h0 e0).1 4 "y"
      = ExpressionEngine.read callR0 (ExpressionEngine.copy h0 e0).2
          (ExpressionEngine.copy h0 e0).1 4 "y" :=
  ⟨by decide,
    (copy_engines_independent callR0 callW0 h0 e0 (by decide)).1 "z" 8 0 9 "z" 2,
    (copy_engines_independent callR0 callW0 h0 e0 (by decide)).2.1 "q" 8 0 9 "z" 2,
    (copy_engines_independent callR0 callW0 h0 e0 (by decide)).2.2.1 "y" 6 4 "y",
    (copy_engines_independent callR0 callW0 h0 e0 (by decide)).2.2.2 "y" 6 4 "y"⟩

end Enaml
